import Mathlib

set_option maxRecDepth 100000

/-!
Verification development for a repository containing two solvers:

* `belts/main.py` — max flow with per-edge lower bounds and node capacities
  (Dinic's algorithm on a `defaultdict`-of-`defaultdict` residual graph);
* `factory/main.py` — a steady-state LP model builder plus a diagnostic
  maximization pass.

The Python code is embedded shallowly: the float arithmetic of the source is
modelled over `ℚ` (all comparisons in the source use the absolute tolerance
`TOL = 1e-9`, reproduced here exactly), Python's insertion-ordered
dictionaries are modelled as association lists, and the `while` loops of
Dinic's algorithm are modelled with explicit fuel (the fuel bounds chosen are
large enough that on terminating runs the fuel never runs out; all universal
theorems below hold for every fuel value).  Decimal output rounding
(`round(x, 2)` in the source) is presentation-layer formatting and is omitted:
result values are carried exactly.
-/

namespace Belts

/-- Tolerance used by the source for all positivity and equality tests. -/
def TOL : ℚ := 1 / 1000000000

/-- Lookup in an association list (first match wins), mirroring Python
dictionary lookup. -/
def alookup {α : Type} : List (String × α) → String → Option α
  | [], _ => none
  | (k, v) :: rest, key => if k = key then some v else alookup rest key

/-- Update-or-append on an association list: if the key is present, rewrite
every entry carrying it (there is at most one, and lookup takes the first);
otherwise append a fresh entry at the end.  This reproduces the insertion
order of a Python dict under `d[k] = f(d.get(k))`. -/
def aupd {α : Type} (l : List (String × α)) (k : String) (f : Option α → α) :
    List (String × α) :=
  if (alookup l k).isSome then
    l.map (fun p => if p.1 = k then (p.1, f (some p.2)) else p)
  else
    l ++ [(k, f none)]

/-- The residual graph of `MaxFlowSolver`: the outer dict maps a vertex to its
inner dict of capacities, `self.graph = defaultdict(lambda: defaultdict(float))`. -/
abbrev Graph : Type := List (String × List (String × ℚ))

/-- Inner adjacency dict of a vertex (empty when the vertex has no entry,
as a `defaultdict` read would produce). -/
def getInner (g : Graph) (u : String) : List (String × ℚ) :=
  (alookup g u).getD []

/-- Read `self.graph[u][v]`, with the `defaultdict` default of `0.0`. -/
def getG (g : Graph) (u v : String) : ℚ :=
  (alookup (getInner g u) v).getD 0

/-- Perform `self.graph[u][v] += c`. -/
def addTo (g : Graph) (u v : String) (c : ℚ) : Graph :=
  aupd g u (fun inner0 =>
    aupd (inner0.getD []) v (fun q => q.getD 0 + c))

/-- `MaxFlowSolver.add_edge`: capacities of at most `TOL` are ignored.  (The
source also records `u` and `v` in `self.nodes`, a set that is never read
afterwards, so it is not modelled.) -/
def add_edge (g : Graph) (u v : String) (capacity : ℚ) : Graph :=
  if capacity > TOL then addTo g u v capacity else g

/-- Levels computed by the BFS, `level : Dict[str, int]`. -/
abbrev Level : Type := List (String × Nat)

/-- Fuel bound derived from the size of the graph; each BFS enqueues every
vertex at most once and every vertex appears in some adjacency list. -/
def gSize (g : Graph) : Nat :=
  g.length + (g.map (fun p => p.2.length)).sum

/-- One BFS worklist loop of `MaxFlowSolver.bfs`; the queue is FIFO and
neighbours are scanned in dict insertion order, as in the source. -/
def bfs_loop : Nat → Graph → Level → List String → Level
  | 0, _, level, _ => level
  | _ + 1, _, level, [] => level
  | fuel + 1, g, level, u :: queue =>
      let lu := (alookup level u).getD 0
      let step := (getInner g u).foldl
        (fun (acc : Level × List String) p =>
          if (alookup acc.1 p.1).isNone ∧ getG g u p.1 > TOL then
            (acc.1 ++ [(p.1, lu + 1)], acc.2 ++ [p.1])
          else acc)
        (level, queue)
      bfs_loop fuel g step.1 step.2

/-- `MaxFlowSolver.bfs`: level graph from `source`. -/
def bfs (g : Graph) (source : String) : Level :=
  bfs_loop (gSize g + 2) g [(source, 0)] [source]

/-- The per-vertex adjacency cursors, `iter_pos : Dict[str, int]`. -/
abbrev Iter : Type := List (String × Nat)

/-- Perform `iter_pos[u] += 1` (the key is always present when the source
executes this statement). -/
def bump (iter : Iter) (u : String) : Iter :=
  iter.map (fun p => if p.1 = u then (p.1, p.2 + 1) else p)

/-- The DFS flow argument: `none` models Python's `float('inf')` which is
passed at the top-level call, `some f` a finite bound. -/
def minO (flow : Option ℚ) (c : ℚ) : ℚ :=
  match flow with
  | none => c
  | some f => min f c

/-- Value returned at the sink, `return flow`.  The `none` (infinite) case can
only be returned when `source = sink`, on which the Python loop diverges; the
embedding returns `0` there, which makes `max_flow` stop instead. -/
def flowVal (flow : Option ℚ) : ℚ :=
  flow.getD 0

/-- The `while iter_pos[u] < len(neighbors)` loop of `MaxFlowSolver.dfs`.
`recf` performs the recursive `self.dfs(v, sink, min(flow, graph[u][v]), …)`
call; the budget is decremented on each loop iteration and is initialised to
`nbrs.length`, which suffices because every iteration either returns or
advances the cursor of `u` (the recursive calls never touch it: recursion
follows strictly increasing levels). -/
def dfs_scan (recf : Graph → Iter → String → Option ℚ → ℚ × Graph × Iter) :
    Nat → Graph → Iter → Level → String → Option ℚ → List String →
    ℚ × Graph × Iter
  | 0, g, iter, _, _, _, _ => (0, g, iter)
  | budget + 1, g, iter, level, u, flow, nbrs =>
      let i := (alookup iter u).getD 0
      if h : i < nbrs.length then
        let v := nbrs.get ⟨i, h⟩
        if alookup level v = some ((alookup level u).getD 0 + 1) ∧
            getG g u v > TOL then
          let r := recf g iter v (some (minO flow (getG g u v)))
          if r.1 > TOL then
            (r.1, addTo (addTo r.2.1 u v (-r.1)) v u r.1, r.2.2)
          else
            dfs_scan recf budget r.2.1 (bump r.2.2 u) level u flow nbrs
        else
          dfs_scan recf budget g (bump iter u) level u flow nbrs
      else (0, g, iter)

/-- `MaxFlowSolver.dfs`: returns the pushed amount together with the mutated
graph and cursor dict.  The fuel bounds the recursion depth, which on real
runs is at most the number of BFS levels. -/
def dfs : Nat → Graph → Iter → Level → String → String → Option ℚ →
    ℚ × Graph × Iter
  | 0, g, iter, _, _, _, _ => (0, g, iter)
  | fuel + 1, g, iter, level, u, sink, flow =>
      if u = sink then (flowVal flow, g, iter)
      else
        let nbrs := (getInner g u).map Prod.fst
        let iter0 := if (alookup iter u).isSome then iter else iter ++ [(u, 0)]
        dfs_scan (fun g1 i1 v fl => dfs fuel g1 i1 level v sink fl)
          nbrs.length g iter0 level u flow nbrs

/-- Depth bound for a single `dfs` call. -/
def dfsFuel (g : Graph) : Nat := gSize g + 2

/-- The inner `while True: pushed = self.dfs(...)` loop of `max_flow`; the
cursor dict persists across the calls of one blocking-flow phase. -/
def dinic_inner : Nat → Graph → Iter → Level → String → String → ℚ → ℚ × Graph
  | 0, g, _, _, _, _, total => (total, g)
  | fuel + 1, g, iter, level, source, sink, total =>
      let r := dfs (dfsFuel g) g iter level source sink none
      if r.1 < TOL then (total, r.2.1)
      else dinic_inner fuel r.2.1 r.2.2 level source sink (total + r.1)

/-- The outer phase loop of `max_flow`: recompute the level graph, stop when
the sink is unreachable, otherwise run a blocking flow with a fresh cursor
dict. -/
def dinic_outer : Nat → Graph → String → String → ℚ → ℚ × Graph
  | 0, g, _, _, total => (total, g)
  | fuel + 1, g, source, sink, total =>
      let level := bfs g source
      if (alookup level sink).isNone then (total, g)
      else
        let r := dinic_inner (gSize g + 2) g [] level source sink 0
        dinic_outer fuel r.2 source sink (total + r.1)

/-- `MaxFlowSolver.max_flow`: total flow value and final residual graph. -/
def max_flow (g : Graph) (source sink : String) : ℚ × Graph :=
  dinic_outer (gSize g + 2) g source sink 0

/-- Worklist loop of `get_reachable`, collecting visited vertices in BFS
order. -/
def reach_loop : Nat → Graph → List String → List String → List String
  | 0, _, visited, _ => visited
  | _ + 1, _, visited, [] => visited
  | fuel + 1, g, visited, u :: queue =>
      let step := (getInner g u).foldl
        (fun (acc : List String × List String) p =>
          if p.1 ∉ acc.1 ∧ getG g u p.1 > TOL then
            (acc.1 ++ [p.1], acc.2 ++ [p.1])
          else acc)
        (visited, queue)
      reach_loop fuel g step.1 step.2

/-- `MaxFlowSolver.get_reachable`: vertices reachable from `source` through
residual capacity `> TOL`. -/
def get_reachable (g : Graph) (source : String) : List String :=
  reach_loop (gSize g + 2) g [source] [source]


/-- An input edge of the belts problem.  `src`/`dst` model the JSON fields
`"from"`/`"to"`; the source defaults a missing `lo` to `0` and a missing `hi`
to `float('inf')` — the embedding covers inputs where both bounds are given
(the infinite default lies outside `ℚ`). -/
structure BEdge where
  src : String
  dst : String
  lo : ℚ
  hi : ℚ
deriving DecidableEq, Repr

/-- The belts input document. -/
structure BeltsInput where
  nodes : List String
  edges : List BEdge
  sources : List (String × ℚ)
  sink : String
  nodeCaps : List (String × ℚ)
deriving DecidableEq, Repr

/-- A transformed edge as built in `solve_belts` Step 1: a split edge carries
`is_split_edge = True` and its original node name, an original edge carries
its original endpoint names.  (The unused field of either kind is set to `""`
in the source's dicts only implicitly — the dicts simply lack the key; the
unused fields here are never read, matching the source.) -/
structure TEdge where
  src : String
  dst : String
  lo : ℚ
  hi : ℚ
  isSplit : Bool
  origSrc : String
  origDst : String
deriving DecidableEq, Repr

/-- An entry of the output `flows` list. -/
structure FlowEntry where
  src : String
  dst : String
  flow : ℚ
deriving DecidableEq, Repr

/-- An entry of the output `tight_edges` list. -/
structure TightEntry where
  src : String
  dst : String
  flowNeeded : ℚ
deriving DecidableEq, Repr

/-- Result document of `solve_belts`. -/
inductive BeltsResult where
  | ok (maxFlowPerMin : ℚ) (flows : List FlowEntry)
  | infeasible (cutReachable : List String) (demandBalance : ℚ)
      (tightNodes : List String) (tightEdges : List TightEntry)
deriving DecidableEq, Repr

/-- Whether a node gets split: it has a node capacity and is neither the sink
nor a source. -/
def isSplitNode (input : BeltsInput) (node : String) : Bool :=
  (alookup input.nodeCaps node).isSome && node ≠ input.sink &&
    (alookup input.sources node).isNone

/-- `node_split_map`: original node name together with its `_in`/`_out`
vertices, in `nodes` order. -/
def node_split_map (input : BeltsInput) : List (String × String × String) :=
  (input.nodes.filter (fun n => isSplitNode input n)).map
    (fun n => (n, n ++ "_in", n ++ "_out"))

/-- `all_nodes`: the source stores these in a Python `set` whose iteration
order is unspecified; the embedding fixes the insertion order (every split
node replaced in place by its `_in` and `_out` vertices).  All outputs
derived from this list are order-independent: the order only decides in which
sequence super-source/super-sink edges are attached. -/
def allNodes (input : BeltsInput) : List String :=
  input.nodes.flatMap
    (fun n => if isSplitNode input n then [n ++ "_in", n ++ "_out"] else [n])

/-- `map_node`: map an endpoint to its split half (`is_source = true` means the
edge leaves this node, so it maps to the `_out` vertex). -/
def map_node (input : BeltsInput) (node : String) (isSource : Bool) : String :=
  if isSplitNode input node then
    (if isSource then node ++ "_out" else node ++ "_in")
  else node

/-- `transformed_edges`: the split capacity edges first (in `nodes` order),
then the original edges mapped onto split vertices (in input order). -/
def transformed_edges (input : BeltsInput) : List TEdge :=
  ((input.nodes.filter (fun n => isSplitNode input n)).map
    (fun n => { src := n ++ "_in", dst := n ++ "_out", lo := 0,
                hi := ((alookup input.nodeCaps n).getD 0), isSplit := true,
                origSrc := n, origDst := n : TEdge }))
  ++ input.edges.map (fun e =>
      { src := map_node input e.src true, dst := map_node input e.dst false,
        lo := e.lo, hi := e.hi, isSplit := false,
        origSrc := e.src, origDst := e.dst : TEdge })

/-- `reduced_edges`: every transformed edge reduced by its lower bound.  (The
source also fills `edge_lower_bounds`, a dict that is never read again, so it
is not modelled.) -/
def reduced_edges (input : BeltsInput) : List (String × String × ℚ) :=
  (transformed_edges input).map (fun e => (e.src, e.dst, e.hi - e.lo))

/-- The `imbalance` defaultdict after the Step 2 loop: for every transformed
edge with `lo > TOL`, the tail loses `lo` and the head gains `lo`. -/
def imbalance (input : BeltsInput) : List (String × ℚ) :=
  (transformed_edges input).foldl
    (fun d e =>
      if e.lo > TOL then
        aupd (aupd d e.src (fun q => q.getD 0 - e.lo)) e.dst
          (fun q => q.getD 0 + e.lo)
      else d)
    []

/-- Read a single node's imbalance (`imbalance[node]`, default `0`). -/
def imbOf (input : BeltsInput) (v : String) : ℚ :=
  (alookup (imbalance input) v).getD 0

def super_source : String := "__super_source__"
def super_sink : String := "__super_sink__"

/-- The Step 3 loop over `all_nodes`: attach super-source edges to vertices of
positive imbalance and super-sink edges to vertices of negative imbalance,
accumulating `total_demand` and `total_supply`. -/
def lb_setup (input : BeltsInput) : Graph × ℚ × ℚ :=
  (allNodes input).foldl
    (fun (acc : Graph × ℚ × ℚ) node =>
      let imb := imbOf input node
      if imb > TOL then (add_edge acc.1 super_source node imb, acc.2.1 + imb, acc.2.2)
      else if imb < -TOL then (add_edge acc.1 node super_sink (-imb), acc.2.1, acc.2.2 + -imb)
      else acc)
    ([], 0, 0)

/-- `total_demand` of the lower-bound feasibility phase. -/
def total_demand (input : BeltsInput) : ℚ := (lb_setup input).2.1

/-- The feasibility graph: super edges plus all reduced edges of positive
capacity. -/
def lb_graph0 (input : BeltsInput) : Graph :=
  (reduced_edges input).foldl
    (fun g e => if e.2.2 > TOL then add_edge g e.1 e.2.1 e.2.2 else g)
    (lb_setup input).1

/-- Result of the feasibility max flow (`lb_flow` and the mutated residual
graph).  In the source this only runs when `total_demand > TOL`; the
definition is total and `solve_belts` consults it only under that guard. -/
def lb_run (input : BeltsInput) : ℚ × Graph :=
  max_flow (lb_graph0 input) super_source super_sink

def lb_flow (input : BeltsInput) : ℚ := (lb_run input).1

def lb_graph_after (input : BeltsInput) : Graph := (lb_run input).2

/-- Residual reachability from the super source after the feasibility flow,
with the super source itself discarded. -/
def lb_reach (input : BeltsInput) : List String :=
  (get_reachable (lb_graph_after input) super_source).erase super_source

/-- Guard of the Step 3 infeasible branch. -/
def lbFails (input : BeltsInput) : Prop :=
  total_demand input > TOL ∧ |lb_flow input - total_demand input| > TOL

instance (input : BeltsInput) : Decidable (lbFails input) := by
  unfold lbFails; infer_instance

/-- Project reached internal vertices back to original node names: either half
of a split pair counts once; unsplit vertices pass through. -/
def original_reachable (input : BeltsInput) (reach : List String) : List String :=
  reach.foldl
    (fun acc node =>
      match (node_split_map input).find?
          (fun s => node = s.2.1 ∨ node = s.2.2) with
      | some s => if s.1 ∈ acc then acc else acc ++ [s.1]
      | none => acc ++ [node])
    []

/-- Comparator used to model Python's `sorted` on strings. -/
def strLe (a b : String) : Bool := a < b

/-- Insert into a sorted list (stable: placed before the first strictly later
element). -/
def sortInsert {α : Type} (le : α → α → Bool) (x : α) : List α → List α
  | [] => [x]
  | y :: ys => if le x y then x :: y :: ys else y :: sortInsert le x ys

/-- Stable insertion sort modelling Python's `sorted`/`list.sort`. -/
def sortBy {α : Type} (le : α → α → Bool) : List α → List α
  | [] => []
  | x :: xs => sortInsert le x (sortBy le xs)

/-- The `tight_edges` extraction of the lower-bound phase (lines 245-254):
reduced edges whose tail is reachable, head unreachable, and whose forward
residual is at most `TOL`; names are the internal vertex names, `flow_needed`
is the reduced capacity.  -/
def tight_edges_lb (input : BeltsInput) : List TightEntry :=
  (reduced_edges input).filterMap
    (fun e =>
      if e.1 ∈ lb_reach input ∧ e.2.1 ∉ lb_reach input ∧
          e.2.2 - getG (lb_graph_after input) e.1 e.2.1 ≥ e.2.2 - TOL then
        some { src := e.1, dst := e.2.1, flowNeeded := e.2.2 }
      else none)

/-- The Step 3 infeasibility document. -/
def lb_infeasible_result (input : BeltsInput) : BeltsResult :=
  .infeasible
    (sortBy strLe (original_reachable input (lb_reach input)))
    (total_demand input - lb_flow input)
    []
    ((tight_edges_lb input).take 3)

def virtual_source : String := "__virtual_source__"

/-- The main-flow graph: reduced edges of positive capacity plus one edge from
the virtual source to each (mapped) source node with its supply. -/
def main_graph0 (input : BeltsInput) : Graph :=
  input.sources.foldl
    (fun g p => add_edge g virtual_source (map_node input p.1 true) p.2)
    ((reduced_edges input).foldl
      (fun g e => if e.2.2 > TOL then add_edge g e.1 e.2.1 e.2.2 else g)
      [])

/-- `total_supply_amount`. -/
def total_supply_amount (input : BeltsInput) : ℚ :=
  (input.sources.map Prod.snd).sum

/-- The sink's internal vertex. -/
def sink_node (input : BeltsInput) : String :=
  map_node input input.sink false

/-- The Step 4 max flow with its mutated residual graph. -/
def main_run (input : BeltsInput) : ℚ × Graph :=
  max_flow (main_graph0 input) virtual_source (sink_node input)

def main_flow_value (input : BeltsInput) : ℚ := (main_run input).1

def main_graph_after (input : BeltsInput) : Graph := (main_run input).2

/-- Residual reachability from the virtual source after the main flow, with
the virtual source discarded. -/
def main_reach (input : BeltsInput) : List String :=
  (get_reachable (main_graph_after input) virtual_source).erase virtual_source

/-- Guard of the Step 4 infeasible branch. -/
def mainFails (input : BeltsInput) : Prop :=
  |main_flow_value input - total_supply_amount input| > TOL

instance (input : BeltsInput) : Decidable (mainFails input) := by
  unfold mainFails; infer_instance

/-- Map a cut edge's tail back to an original name: a `_out` vertex of a split
pair projects to the node, anything else stays (so `_in` vertices leak
through, exactly as in the source, lines 315-319). -/
def map_back_tail (input : BeltsInput) (u : String) : String :=
  match (node_split_map input).find? (fun s => u = s.2.2) with
  | some s => s.1
  | none => u

/-- Map a cut edge's head back: a `_in` vertex projects to its node. -/
def map_back_head (input : BeltsInput) (v : String) : String :=
  match (node_split_map input).find? (fun s => v = s.2.1) with
  | some s => s.1
  | none => v

/-- The `tight_edges` extraction of the main phase (lines 307-325), with the
partial mapping back to original node names. -/
def tight_edges_main (input : BeltsInput) : List TightEntry :=
  (reduced_edges input).filterMap
    (fun e =>
      if e.1 ∈ main_reach input ∧ e.2.1 ∉ main_reach input ∧
          e.2.2 - getG (main_graph_after input) e.1 e.2.1 ≥ e.2.2 - TOL then
        some { src := map_back_tail input e.1, dst := map_back_head input e.2.1,
               flowNeeded := e.2.2 }
      else none)

/-- The Step 4 infeasibility document. -/
def main_infeasible_result (input : BeltsInput) : BeltsResult :=
  .infeasible
    (sortBy strLe (original_reachable input (main_reach input)))
    (total_supply_amount input - main_flow_value input)
    []
    ((tight_edges_main input).take 3)

/-- Step 5 reconstruction: for every non-split transformed edge, the realized
reduced flow is `max(0, (hi - lo) - remaining)` and the reported flow adds the
lower bound back; flows of at most `TOL` are dropped. -/
def flows_raw (input : BeltsInput) : List FlowEntry :=
  (transformed_edges input).filterMap
    (fun e =>
      if e.isSplit then none
      else
        let reducedFlow := max 0 ((e.hi - e.lo) - getG (main_graph_after input) e.src e.dst)
        let originalFlow := reducedFlow + e.lo
        if originalFlow > TOL then
          some { src := e.origSrc, dst := e.origDst, flow := originalFlow }
        else none)

/-- Comparator for the `(from, to)` sort key of the output flows. -/
def flowLe (a b : FlowEntry) : Bool :=
  if a.src = b.src then strLe a.dst b.dst else strLe a.src b.src

/-- The Step 5 feasible document. -/
def ok_result (input : BeltsInput) : BeltsResult :=
  .ok (main_flow_value input) (sortBy flowLe (flows_raw input))

/-- `solve_belts`: the full pipeline. -/
def solve_belts (input : BeltsInput) : BeltsResult :=
  if lbFails input then lb_infeasible_result input
  else if mainFails input then main_infeasible_result input
  else ok_result input

end Belts

namespace Factory

open Belts (TOL alookup aupd)

/-- A recipe: `inputs`/`outputs` model the JSON bags `"in"`/`"out"`. -/
structure FRecipe where
  machine : String
  time_s : ℚ
  inputs : List (String × ℚ)
  outputs : List (String × ℚ)
deriving DecidableEq, Repr

/-- The factory input document.  `machines` maps a class to its
`crafts_per_min`; `modules` maps a class to its `(speed, prod)` profile;
`rawCaps` and `maxMachines` model `limits.raw_supply_per_min` and
`limits.max_machines`. -/
structure FactoryInput where
  machines : List (String × ℚ)
  recipes : List (String × FRecipe)
  modules : List (String × ℚ × ℚ)
  rawCaps : List (String × ℚ)
  maxMachines : List (String × ℚ)
  targetItem : String
  ratePerMin : ℚ
deriving DecidableEq, Repr

/-- Effective crafts per minute of a recipe:
`base_cpm * (1 + speed)`.  (A recipe naming an unknown machine crashes the
source with a `TypeError`; such inputs are outside the modelled fragment and
the lookup defaults to `0` here.) -/
def eff (d : FactoryInput) (r : FRecipe) : ℚ :=
  ((alookup d.machines r.machine).getD 0) *
    (1 + ((alookup d.modules r.machine).map Prod.fst).getD 0)

/-- Productivity bonus of the recipe's machine. -/
def prodBonus (d : FactoryInput) (r : FRecipe) : ℚ :=
  ((alookup d.modules r.machine).map (fun m => m.2)).getD 0

/-- The `items` list: every item appearing in some recipe's input or output
bag, deduplicated and sorted (the source collects them in a `set` and then
sorts).  The target item is NOT added here — exactly as in the source. -/
def itemsOf (d : FactoryInput) : List String :=
  Belts.sortBy Belts.strLe
    ((d.recipes.flatMap
        (fun p => p.2.inputs.map Prod.fst ++ p.2.outputs.map Prod.fst)).eraseDups)

/-- Balance coefficient of item `it` in recipe `r`:
`out_qty * (1 + prod) - in_qty`. -/
def coeff (d : FactoryInput) (it : String) (r : FRecipe) : ℚ :=
  ((alookup r.outputs it).getD 0) * (1 + prodBonus d r) -
    ((alookup r.inputs it).getD 0)

/-- Net production of item `it` under crafts-per-minute assignment `x`:
`Σ_r coeff(it, r) · x_r` (the source registers only nonzero coefficients on
its constraints, which leaves this sum unchanged). -/
def netProd (d : FactoryInput) (it : String) (x : String → ℚ) : ℚ :=
  (d.recipes.map (fun p => coeff d it p.2 * x p.1)).sum

/-- Machine usage of class `m`: `Σ_{r : machine(r)=m, eff_r>0} x_r / eff_r`. -/
def machineUsage (d : FactoryInput) (x : String → ℚ) (m : String) : ℚ :=
  (d.recipes.map
    (fun p => if p.2.machine = m ∧ eff d p.2 > 0 then x p.1 / eff d p.2 else 0)).sum

/-- The per-item balance constraint built for item `it`: a raw item gets a
consumption variable bounded by its cap that enters the equality; the
right-hand side is the requested rate for the target item and `0` otherwise. -/
def itemConstraint (d : FactoryInput) (x c : String → ℚ) (it : String) : Prop :=
  match alookup d.rawCaps it with
  | some cap =>
      0 ≤ c it ∧ c it ≤ cap ∧
      netProd d it x + c it = (if it = d.targetItem then d.ratePerMin else 0)
  | none =>
      netProd d it x = (if it = d.targetItem then d.ratePerMin else 0)

instance (d : FactoryInput) (x c : String → ℚ) (it : String) :
    Decidable (itemConstraint d x c it) := by
  unfold itemConstraint
  cases alookup d.rawCaps it <;> infer_instance

/-- The machine-usage constraint of class `m` (`Constraint(0.0, cap)` where a
missing cap is `float("inf")`), together with the pinning of un-runnable
recipes to zero. -/
def machineConstraint (d : FactoryInput) (x : String → ℚ) (m : String) : Prop :=
  (0 ≤ machineUsage d x m ∧
    match alookup d.maxMachines m with
    | some cap => machineUsage d x m ≤ cap
    | none => True) ∧
  (∀ q ∈ d.recipes, q.2.machine = m → eff d q.2 ≤ 0 → x q.1 = 0)

instance (d : FactoryInput) (x : String → ℚ) (m : String) :
    Decidable (machineConstraint d x m) := by
  unfold machineConstraint
  cases alookup d.maxMachines m <;> infer_instance

/-- The primary LP's constraint system (`maximize_target = False`): a point
`(x, c)` is feasible exactly when every constraint built by `build_and_solve`
holds.  An `"ok"` answer of the LP oracle is a point satisfying this
predicate. -/
def FeasPrimary (d : FactoryInput) (x : String → ℚ) (c : String → ℚ) : Prop :=
  (∀ p ∈ d.recipes, 0 ≤ x p.1) ∧
  (∀ it ∈ itemsOf d, itemConstraint d x c it) ∧
  (∀ p ∈ d.machines, machineConstraint d x p.1)

instance (d : FactoryInput) (x c : String → ℚ) : Decidable (FeasPrimary d x c) := by
  unfold FeasPrimary
  infer_instance

/-- Result document of the factory solver (only the fields the diagnostic
branch emits are modelled; the `"ok"` branch document is summarised by its
status). -/
inductive FactoryResult where
  | ok
  | infeasible (maxFeasibleTargetPerMin : ℚ) (bottleneckHint : List String)
deriving DecidableEq, Repr

/-- The primal values the diagnostic LP oracle hands back: per-recipe crafts,
the maximized target variable, and per-raw-item consumption. -/
structure DiagSol where
  xvals : String → ℚ
  targetVal : ℚ
  cvals : String → ℚ

/-- The raw items owning a consumption variable (`consumption2.items()`), in
the `items` iteration order. -/
def rawItems (d : FactoryInput) : List String :=
  (itemsOf d).filter (fun it => (alookup d.rawCaps it).isSome)

/-- The `tight` list of the diagnostic branch: machine classes, in `machines`
order, whose usage reaches their cap within `1e-6`. -/
def tight_machines (d : FactoryInput) (xv : String → ℚ) : List String :=
  d.machines.foldl
    (fun acc p =>
      match alookup d.maxMachines p.1 with
      | some cap =>
          if machineUsage d xv p.1 ≥ cap - 1 / 1000000 then acc ++ [p.1 ++ " cap"]
          else acc
      | none => acc)
    []

/-- The `raw_tight` list: raw items, in `consumption2` order, whose
consumption reaches their cap within `1e-6`. -/
def tight_raws (d : FactoryInput) (cv : String → ℚ) : List String :=
  (rawItems d).foldl
    (fun acc it =>
      match alookup d.rawCaps it with
      | some cap =>
          if cv it ≥ cap - 1 / 1000000 then acc ++ [it ++ " supply"]
          else acc
      | none => acc)
    []

/-- The infeasible-branch output of `build_and_solve` as a function of the
second LP's outcome: `none` models `solver2` reporting infeasibility. -/
def diagnostic_result (d : FactoryInput) (sol : Option DiagSol) : FactoryResult :=
  match sol with
  | none => .infeasible 0 ["unsatisfiable"]
  | some s => .infeasible s.targetVal (tight_machines d s.xvals ++ tight_raws d s.cvals)

end Factory

namespace Belts

/-- Modelled from the spec (§4.1 lower-bound reduction): the claimed
per-vertex balance `b(v) = s(v) + Σ lo(e into v) − Σ lo(e out of v)` on the
transformed graph, where every source contributes `+supply` to its node and
the sink receives `−total_supply`.  This is the spec's wording, to be
compared with the source's `imbalance`. -/
def spec_balance (input : BeltsInput) (v : String) : ℚ :=
  (alookup input.sources v).getD 0 -
    (if v = input.sink then total_supply_amount input else 0) +
    (((transformed_edges input).filter (fun e => e.dst = v)).map (fun e => e.lo)).sum -
    (((transformed_edges input).filter (fun e => e.src = v)).map (fun e => e.lo)).sum

/-- The repository's own seed test `test_belts_feasible_lower_bounds_node_cap`
(spec scenario "Belts A"), whose expected status is `"ok"`. -/
def beltsA : BeltsInput :=
  { nodes := ["s1", "a", "b", "sink"],
    edges := [⟨"s1", "a", 50, 200⟩, ⟨"a", "b", 40, 150⟩, ⟨"b", "sink", 0, 120⟩],
    sources := [("s1", 120)], sink := "sink", nodeCaps := [("b", 120)] }

/-- Input with an edge whose `hi` is strictly below its `lo` (beyond `TOL`). -/
def exC3 : BeltsInput :=
  { nodes := ["s", "t"],
    edges := [⟨"s", "t", 5, 3⟩, ⟨"t", "s", 0, 10⟩],
    sources := [("s", 0)], sink := "t", nodeCaps := [] }

/-- Input with two parallel edges `a → t`; the solver merges them. -/
def exC4 : BeltsInput :=
  { nodes := ["s", "a", "t"],
    edges := [⟨"s", "a", 0, 10⟩, ⟨"a", "t", 0, 10⟩, ⟨"a", "t", 0, 10⟩],
    sources := [("s", 10)], sink := "t", nodeCaps := [] }

/-- Input whose lower-bound phase fails with a saturated cut edge `q → p` of
lower bound `0` and reduced capacity `4`. -/
def exC5 : BeltsInput :=
  { nodes := ["p", "q", "t"],
    edges := [⟨"p", "q", 10, 12⟩, ⟨"q", "p", 0, 4⟩],
    sources := [], sink := "t", nodeCaps := [] }

/-- Input whose main phase fails on a saturated node-capacity split edge. -/
def exC6 : BeltsInput :=
  { nodes := ["s", "a", "t"],
    edges := [⟨"s", "a", 0, 10⟩, ⟨"a", "t", 0, 10⟩],
    sources := [("s", 10)], sink := "t", nodeCaps := [("a", 5)] }

/-- Same input as `exC3` under a different name (bound-violating edge with a
feasible run), used for an independent claim. -/
def exC7 : BeltsInput :=
  { nodes := ["s", "t"],
    edges := [⟨"s", "t", 5, 3⟩, ⟨"t", "s", 0, 10⟩],
    sources := [("s", 0)], sink := "t", nodeCaps := [] }

/-- Feasible input in which the unused edge `a → t` carries zero flow. -/
def exC9 : BeltsInput :=
  { nodes := ["s", "a", "t"],
    edges := [⟨"s", "t", 0, 10⟩, ⟨"a", "t", 0, 10⟩],
    sources := [("s", 5)], sink := "t", nodeCaps := [] }

/-- Simple infeasible input (supply exceeds the single edge capacity). -/
def exC10 : BeltsInput :=
  { nodes := ["s", "t"],
    edges := [⟨"s", "t", 0, 5⟩],
    sources := [("s", 10)], sink := "t", nodeCaps := [] }

/-- Feasible input used to witness the bound-compliance theorem. -/
def exC7W : BeltsInput :=
  { nodes := ["s", "t"],
    edges := [⟨"s", "t", 0, 8⟩],
    sources := [("s", 6)], sink := "t", nodeCaps := [] }

end Belts

namespace Factory

/-- Modelled from the claim wording: every machine-class entry
`"<machine> cap"` whose usage reaches its cap within `10⁻⁶`. -/
def spec_machine_hints (d : FactoryInput) (xv : String → ℚ) : List String :=
  ((d.machines.map Prod.fst).filter
    (fun m =>
      match Belts.alookup d.maxMachines m with
      | some cap => decide (machineUsage d xv m ≥ cap - 1 / 1000000)
      | none => false)).map (fun m => m ++ " cap")

/-- Modelled from the claim wording: every raw-item entry `"<item> supply"`
whose consumption reaches its cap within `10⁻⁶`. -/
def spec_raw_hints (d : FactoryInput) (cv : String → ℚ) : List String :=
  ((rawItems d).filter
    (fun it =>
      match Belts.alookup d.rawCaps it with
      | some cap => decide (cv it ≥ cap - 1 / 1000000)
      | none => false)).map (fun it => it ++ " supply")

/-- Input whose target item appears in no recipe bag. -/
def exC1 : FactoryInput :=
  { machines := [("m", 30)],
    recipes := [("r1", { machine := "m", time_s := 1,
                         inputs := [("iron", 1)], outputs := [("plate", 1)] })],
    modules := [], rawCaps := [("iron", 100)], maxMachines := [],
    targetItem := "gear", ratePerMin := 10 }

/-- Input whose target item does appear in a recipe bag, with a feasible
point hitting the requested rate. -/
def exC1W : FactoryInput :=
  { machines := [("m", 30)],
    recipes := [("r1", { machine := "m", time_s := 1,
                         inputs := [], outputs := [("plate", 1)] })],
    modules := [], rawCaps := [], maxMachines := [],
    targetItem := "plate", ratePerMin := 30 }

end Factory

/-!  Helper lemmas about the association-list dictionary model. -/

namespace Belts

theorem TOL_pos : 0 < TOL := by norm_num [TOL]

theorem alookup_append {α : Type} (l1 l2 : List (String × α)) (k : String) :
    alookup (l1 ++ l2) k =
      match alookup l1 k with
      | some v => some v
      | none => alookup l2 k := by
  induction l1 with
  | nil => simp [alookup]
  | cons p rest ih =>
      obtain ⟨a, b⟩ := p
      by_cases h : a = k <;> simp [alookup, h, ih]

theorem alookup_mapUpd {α : Type} (l : List (String × α)) (k : String)
    (f : Option α → α) (k2 : String) :
    alookup (l.map (fun p => if p.1 = k then (p.1, f (some p.2)) else p)) k2 =
      if k2 = k then (alookup l k).map (fun b => f (some b))
      else alookup l k2 := by
  induction l with
  | nil => simp [alookup]
  | cons p rest ih =>
      obtain ⟨a, b⟩ := p
      have hhead : (if (a, b).1 = k then ((a, b).1, f (some (a, b).2)) else (a, b))
          = (a, if a = k then f (some b) else b) := by
        by_cases h : a = k <;> simp [h]
      rw [List.map_cons, hhead]
      by_cases hak : a = k
      · subst hak
        by_cases hk2 : a = k2
        · subst hk2
          simp [alookup]
        · have hk2s : ¬ (k2 = a) := fun h => hk2 h.symm
          simp [alookup, hk2, hk2s, ih]
      · by_cases hk2 : a = k2
        · subst hk2
          simp [alookup, hak]
        · simp [alookup, hak, hk2, ih]

theorem alookup_aupd {α : Type} (l : List (String × α)) (k : String)
    (f : Option α → α) (k2 : String) :
    alookup (aupd l k f) k2 =
      if k2 = k then some (f (alookup l k)) else alookup l k2 := by
  unfold aupd
  by_cases hs : (alookup l k).isSome
  · obtain ⟨b, hb⟩ := Option.isSome_iff_exists.mp hs
    simp [hs, alookup_mapUpd, hb]
  · have hnone : alookup l k = none := Option.not_isSome_iff_eq_none.mp hs
    by_cases hk : k2 = k
    · subst hk
      simp [hs, alookup_append, hnone, alookup]
    · have hks : ¬ (k = k2) := fun h => hk h.symm
      cases hx : alookup l k2 with
      | some w => simp [hs, alookup_append, hx, hk]
      | none => simp [hs, alookup_append, hx, alookup, hks, hk]

theorem getG_addTo (g : Graph) (u v : String) (c : ℚ) (a b : String) :
    getG (addTo g u v c) a b =
      if a = u ∧ b = v then getG g u v + c else getG g a b := by
  simp only [addTo, getG, getInner, alookup_aupd]
  by_cases hau : a = u
  · subst hau
    simp only [if_pos rfl]
    by_cases hbv : b = v
    · subst hbv
      simp [alookup_aupd]
    · simp [alookup_aupd, hbv]
  · simp [hau]

theorem getG_add_edge (g : Graph) (u v : String) (c : ℚ) (a b : String) :
    getG (add_edge g u v c) a b =
      if c > TOL then
        (if a = u ∧ b = v then getG g u v + c else getG g a b)
      else getG g a b := by
  unfold add_edge
  by_cases h : c > TOL <;> simp [h, getG_addTo]

/-- All residual values of a graph are nonnegative. -/
def NonnegG (g : Graph) : Prop := ∀ u v, 0 ≤ getG g u v

theorem NonnegG_nil : NonnegG [] := by
  intro u v
  simp [getG, getInner, alookup]

theorem NonnegG_add_edge {g : Graph} (h : NonnegG g) (u v : String) (c : ℚ) :
    NonnegG (add_edge g u v c) := by
  intro a b
  rw [getG_add_edge]
  by_cases hc : c > TOL
  · simp only [if_pos hc]
    by_cases hab : a = u ∧ b = v
    · simp only [if_pos hab]
      have := h u v
      have : (0 : ℚ) < c := lt_trans TOL_pos hc
      linarith [h u v]
    · simp only [if_neg hab]; exact h a b
  · simp only [if_neg hc]; exact h a b

theorem mem_sortInsert {α : Type} (le : α → α → Bool) (x y : α) (l : List α) :
    y ∈ sortInsert le x l ↔ y = x ∨ y ∈ l := by
  induction l with
  | nil => simp [sortInsert]
  | cons a rest ih =>
      unfold sortInsert
      by_cases h : le x a
      · simp [h]
      · simp [h, ih]
        tauto

theorem mem_sortBy {α : Type} (le : α → α → Bool) (x : α) (l : List α) :
    x ∈ sortBy le l ↔ x ∈ l := by
  induction l with
  | nil => simp [sortBy]
  | cons a rest ih =>
      unfold sortBy
      rw [mem_sortInsert]
      simp [ih]

end Belts

namespace Belts

/-- Nonnegativity predicate on the DFS flow argument (`none` is `+∞`). -/
def flowNN (flow : Option ℚ) : Prop := ∀ f, flow = some f → 0 ≤ f

/-- Invariant bundle satisfied by every `dfs` call: the pushed amount is
nonnegative and bounded by the flow argument, a push of at most `TOL` leaves
the graph untouched, residual decrements happen only at vertices whose BFS
level is at least the level of the call root, and nonnegativity of all
residuals is preserved. -/
def DfsSpec (level : Level) (u : String) (g : Graph) (flow : Option ℚ)
    (r : ℚ × Graph × Iter) : Prop :=
  0 ≤ r.1 ∧
  (∀ f, flow = some f → r.1 ≤ f) ∧
  (r.1 ≤ TOL → r.2.1 = g) ∧
  (∀ a b, getG r.2.1 a b < getG g a b →
    (alookup level a).getD 0 ≥ (alookup level u).getD 0) ∧
  (NonnegG g → NonnegG r.2.1)

theorem minO_le_right (flow : Option ℚ) (c : ℚ) : minO flow c ≤ c := by
  cases flow with
  | none => simp [minO]
  | some f => simp [minO, min_le_right]

theorem flowNN_minO {flow : Option ℚ} (h : flowNN flow) {c : ℚ} (hc : 0 ≤ c) :
    flowNN (some (minO flow c)) := by
  intro f hf
  cases flow with
  | none =>
      simp [minO] at hf
      subst hf
      exact hc
  | some f0 =>
      simp [minO] at hf
      subst hf
      exact le_min (h f0 rfl) hc

theorem dfsSpec_self {level : Level} {u : String} {g : Graph} {flow : Option ℚ}
    {iter : Iter} {q : ℚ} (h1 : 0 ≤ q) (h2 : ∀ f, flow = some f → q ≤ f) :
    DfsSpec level u g flow (q, g, iter) := by
  refine ⟨h1, h2, fun _ => rfl, ?_, fun h => h⟩
  intro a b hab
  exact absurd hab (lt_irrefl _)

theorem dfs_scan_spec (recf : Graph → Iter → String → Option ℚ → ℚ × Graph × Iter)
    (level : Level) (u : String)
    (Hrec : ∀ g1 i1 v fl, flowNN fl → DfsSpec level v g1 fl (recf g1 i1 v fl)) :
    ∀ (budget : Nat) (g : Graph) (iter : Iter) (flow : Option ℚ)
      (nbrs : List String), flowNN flow →
      DfsSpec level u g flow (dfs_scan recf budget g iter level u flow nbrs) := by
  intro budget
  induction budget with
  | zero =>
      intro g iter flow nbrs hflow
      simp only [dfs_scan]
      exact dfsSpec_self (le_refl 0) (fun f hf => hflow f hf)
  | succ budget ih =>
      intro g iter flow nbrs hflow
      simp only [dfs_scan]
      by_cases hlen : (alookup iter u).getD 0 < nbrs.length
      · simp only [dif_pos hlen]
        set v := nbrs.get ⟨(alookup iter u).getD 0, hlen⟩ with hv
        by_cases hcond : alookup level v = some ((alookup level u).getD 0 + 1) ∧
            getG g u v > TOL
        · simp only [if_pos hcond]
          obtain ⟨hlev, hpos⟩ := hcond
          have hflow2 : flowNN (some (minO flow (getG g u v))) :=
            flowNN_minO hflow (le_of_lt (lt_trans TOL_pos hpos))
          have Hr := Hrec g iter v (some (minO flow (getG g u v))) hflow2
          set r := recf g iter v (some (minO flow (getG g u v))) with hrdef
          obtain ⟨Hr1, Hr2, Hr3, Hr4, Hr5⟩ := Hr
          have hlv : (alookup level v).getD 0 = (alookup level u).getD 0 + 1 := by
            rw [hlev]; rfl
          have hune : ¬ (u = v) := by
            intro h
            rw [h] at hlv
            omega
          by_cases hpush : r.1 > TOL
          · simp only [if_pos hpush]
            have hple : r.1 ≤ minO flow (getG g u v) := Hr2 _ rfl
            have hpuv : r.1 ≤ getG g u v :=
              le_trans hple (minO_le_right _ _)
            have huv_pres : getG g u v ≤ getG r.2.1 u v := by
              by_contra hlt
              push_neg at hlt
              have := Hr4 u v hlt
              omega
            constructor
            · exact le_of_lt (lt_trans TOL_pos hpush)
            constructor
            · intro f hf
              have := hple
              rw [hf] at this
              simp only [minO] at this
              exact le_trans this (min_le_left _ _)
            constructor
            · intro hle
              exact absurd hpush (not_lt_of_le hle)
            constructor
            · intro a b hab
              by_cases hvu : a = v ∧ b = u
              · rw [hvu.1, hlv]
                omega
              · by_cases huv : a = u ∧ b = v
                · rw [huv.1]
                · simp only [getG_addTo, if_neg hvu, if_neg huv] at hab
                  have := Hr4 a b hab
                  omega
            · intro hg
              have hg2 : NonnegG r.2.1 := Hr5 hg
              intro a b
              simp only [getG_addTo]
              by_cases hvu : a = v ∧ b = u
              · simp only [if_pos hvu]
                have hne2 : ¬ (v = u ∧ u = v) := fun h => hune h.2
                simp only [if_neg hne2]
                have h1 := hg2 v u
                have h2 : (0 : ℚ) < r.1 := lt_trans TOL_pos hpush
                linarith
              · simp only [if_neg hvu]
                by_cases huv : a = u ∧ b = v
                · simp only [if_pos huv]
                  linarith [huv_pres, hpuv]
                · simp only [if_neg huv]
                  exact hg2 a b
          · simp only [if_neg hpush]
            have hle : r.1 ≤ TOL := not_lt.mp hpush
            have hgeq : r.2.1 = g := Hr3 hle
            rw [hgeq]
            exact ih g (bump r.2.2 u) flow nbrs hflow
        · simp only [if_neg hcond]
          exact ih g (bump iter u) flow nbrs hflow
      · simp only [dif_neg hlen]
        exact dfsSpec_self (le_refl 0) (fun f hf => hflow f hf)

theorem dfs_spec : ∀ (fuel : Nat) (g : Graph) (iter : Iter) (level : Level)
    (u sink : String) (flow : Option ℚ), flowNN flow →
    DfsSpec level u g flow (dfs fuel g iter level u sink flow) := by
  intro fuel
  induction fuel with
  | zero =>
      intro g iter level u sink flow hflow
      simp only [dfs]
      exact dfsSpec_self (le_refl 0) (fun f hf => hflow f hf)
  | succ fuel ih =>
      intro g iter level u sink flow hflow
      simp only [dfs]
      by_cases hus : u = sink
      · simp only [if_pos hus]
        refine dfsSpec_self ?_ ?_
        · cases flow with
          | none => simp [flowVal]
          | some f => simpa [flowVal] using hflow f rfl
        · intro f hf
          subst hf
          simp [flowVal]
      · simp only [if_neg hus]
        exact dfs_scan_spec _ level u
          (fun g1 i1 v fl hfl => ih g1 i1 level v sink fl hfl)
          _ g _ flow _ hflow

end Belts

namespace Belts

theorem flowNN_none : flowNN none := by
  intro f hf
  cases hf

theorem dinic_inner_nonneg : ∀ (fuel : Nat) (g : Graph) (iter : Iter)
    (level : Level) (source sink : String) (total : ℚ), NonnegG g →
    NonnegG (dinic_inner fuel g iter level source sink total).2 := by
  intro fuel
  induction fuel with
  | zero =>
      intro g iter level source sink total hg
      simpa only [dinic_inner] using hg
  | succ fuel ih =>
      intro g iter level source sink total hg
      simp only [dinic_inner]
      have hspec := dfs_spec (dfsFuel g) g iter level source sink none flowNN_none
      obtain ⟨h1, h2, h3, h4, h5⟩ := hspec
      by_cases hbr : (dfs (dfsFuel g) g iter level source sink none).1 < TOL
      · simp only [if_pos hbr]
        exact h5 hg
      · simp only [if_neg hbr]
        exact ih _ _ _ _ _ _ (h5 hg)

theorem dinic_outer_nonneg : ∀ (fuel : Nat) (g : Graph) (source sink : String)
    (total : ℚ), NonnegG g →
    NonnegG (dinic_outer fuel g source sink total).2 := by
  intro fuel
  induction fuel with
  | zero =>
      intro g source sink total hg
      simpa only [dinic_outer] using hg
  | succ fuel ih =>
      intro g source sink total hg
      simp only [dinic_outer]
      by_cases hbr : (alookup (bfs g source) sink).isNone
      · simp only [if_pos hbr]
        exact hg
      · simp only [if_neg hbr]
        exact ih _ _ _ _ (dinic_inner_nonneg _ _ _ _ _ _ _ hg)

theorem max_flow_nonneg {g : Graph} (hg : NonnegG g) (source sink : String) :
    NonnegG (max_flow g source sink).2 :=
  dinic_outer_nonneg _ _ _ _ _ hg

theorem foldl_add_edge_nonneg {α : Type} (step : Graph → α → Graph)
    (hstep : ∀ g a, NonnegG g → NonnegG (step g a)) :
    ∀ (l : List α) (g : Graph), NonnegG g → NonnegG (l.foldl step g) := by
  intro l
  induction l with
  | nil => intro g hg; simpa using hg
  | cons a rest ih =>
      intro g hg
      simp only [List.foldl_cons]
      exact ih _ (hstep g a hg)

theorem main_graph0_nonneg (input : BeltsInput) : NonnegG (main_graph0 input) := by
  unfold main_graph0
  apply foldl_add_edge_nonneg
  · intro g a hg
    exact NonnegG_add_edge hg _ _ _
  · apply foldl_add_edge_nonneg
    · intro g a hg
      by_cases hc : a.2.2 > TOL
      · simp only [if_pos hc]
        exact NonnegG_add_edge hg _ _ _
      · simp only [if_neg hc]
        exact hg
    · exact NonnegG_nil

theorem main_graph_after_nonneg (input : BeltsInput) :
    NonnegG (main_graph_after input) := by
  unfold main_graph_after main_run
  exact max_flow_nonneg (main_graph0_nonneg input) _ _

end Belts

namespace Belts

theorem solve_belts_ok_elim {input : BeltsInput} {mf : ℚ} {fl : List FlowEntry}
    (h : solve_belts input = .ok mf fl) :
    mf = main_flow_value input ∧ fl = sortBy flowLe (flows_raw input) := by
  unfold solve_belts at h
  by_cases h1 : lbFails input
  · rw [if_pos h1] at h
    exact absurd h (by simp [lb_infeasible_result])
  · rw [if_neg h1] at h
    by_cases h2 : mainFails input
    · rw [if_pos h2] at h
      exact absurd h (by simp [main_infeasible_result])
    · rw [if_neg h2] at h
      unfold ok_result at h
      rw [BeltsResult.ok.injEq] at h
      exact ⟨h.1.symm, h.2.symm⟩

theorem solve_belts_infeasible_elim {input : BeltsInput} {cr : List String}
    {db : ℚ} {tn : List String} {te : List TightEntry}
    (h : solve_belts input = .infeasible cr db tn te) :
    tn = [] ∧
      (te = (tight_edges_lb input).take 3 ∨
        te = (tight_edges_main input).take 3) := by
  unfold solve_belts at h
  by_cases h1 : lbFails input
  · rw [if_pos h1] at h
    unfold lb_infeasible_result at h
    rw [BeltsResult.infeasible.injEq] at h
    exact ⟨h.2.2.1.symm, Or.inl h.2.2.2.symm⟩
  · rw [if_neg h1] at h
    by_cases h2 : mainFails input
    · rw [if_pos h2] at h
      unfold main_infeasible_result at h
      rw [BeltsResult.infeasible.injEq] at h
      exact ⟨h.2.2.1.symm, Or.inr h.2.2.2.symm⟩
    · rw [if_neg h2] at h
      exact absurd h (by simp [ok_result])

theorem mem_tight_edges_lb {input : BeltsInput} {entry : TightEntry}
    (h : entry ∈ tight_edges_lb input) :
    ∃ uvc ∈ reduced_edges input,
      entry = ⟨uvc.1, uvc.2.1, uvc.2.2⟩ ∧
      uvc.1 ∈ lb_reach input ∧ uvc.2.1 ∉ lb_reach input ∧
      getG (lb_graph_after input) uvc.1 uvc.2.1 ≤ TOL := by
  unfold tight_edges_lb at h
  rw [List.mem_filterMap] at h
  obtain ⟨uvc, hmem, hf⟩ := h
  refine ⟨uvc, hmem, ?_⟩
  split at hf
  case isTrue hc =>
    rw [Option.some.injEq] at hf
    refine ⟨hf.symm, hc.1, hc.2.1, ?_⟩
    linarith [hc.2.2]
  case isFalse hc => cases hf

theorem mem_tight_edges_main {input : BeltsInput} {entry : TightEntry}
    (h : entry ∈ tight_edges_main input) :
    ∃ uvc ∈ reduced_edges input,
      entry = ⟨map_back_tail input uvc.1, map_back_head input uvc.2.1, uvc.2.2⟩ ∧
      uvc.1 ∈ main_reach input ∧ uvc.2.1 ∉ main_reach input ∧
      getG (main_graph_after input) uvc.1 uvc.2.1 ≤ TOL := by
  unfold tight_edges_main at h
  rw [List.mem_filterMap] at h
  obtain ⟨uvc, hmem, hf⟩ := h
  refine ⟨uvc, hmem, ?_⟩
  split at hf
  case isTrue hc =>
    rw [Option.some.injEq] at hf
    refine ⟨hf.symm, hc.1, hc.2.1, ?_⟩
    linarith [hc.2.2]
  case isFalse hc => cases hf

theorem mem_flows_raw {input : BeltsInput} {entry : FlowEntry}
    (h : entry ∈ flows_raw input) :
    ∃ e ∈ transformed_edges input, e.isSplit = false ∧
      entry.src = e.origSrc ∧ entry.dst = e.origDst ∧
      entry.flow =
        max 0 ((e.hi - e.lo) - getG (main_graph_after input) e.src e.dst) + e.lo ∧
      entry.flow > TOL := by
  unfold flows_raw at h
  rw [List.mem_filterMap] at h
  obtain ⟨e, hmem, hf⟩ := h
  refine ⟨e, hmem, ?_⟩
  split at hf
  case isTrue hsp => cases hf
  case isFalse hsp =>
    simp only [] at hf
    split at hf
    case isTrue hfl =>
      rw [Option.some.injEq] at hf
      subst hf
      exact ⟨Bool.not_eq_true _ ▸ by simpa using hsp, rfl, rfl, rfl, hfl⟩
    case isFalse hfl => cases hf

theorem not_split_mem_transformed {input : BeltsInput} {e : TEdge}
    (he : e ∈ transformed_edges input) (hs : e.isSplit = false) :
    ∃ e0 ∈ input.edges, e.lo = e0.lo ∧ e.hi = e0.hi ∧
      e.origSrc = e0.src ∧ e.origDst = e0.dst ∧
      e.src = map_node input e0.src true ∧ e.dst = map_node input e0.dst false := by
  unfold transformed_edges at he
  rw [List.mem_append] at he
  cases he with
  | inl hsplit =>
      rw [List.mem_map] at hsplit
      obtain ⟨n, _, hn⟩ := hsplit
      rw [← hn] at hs
      simp at hs
  | inr horig =>
      rw [List.mem_map] at horig
      obtain ⟨e0, hmem, he0⟩ := horig
      subst he0
      exact ⟨e0, hmem, rfl, rfl, rfl, rfl, rfl, rfl⟩

end Belts

namespace Belts

/-- C2: the lower-bound feasibility phase of `solve_belts` computes its
per-vertex balance from edge lower bounds only — contrary to the claim, no
supply term is included (the repository's own seed test `beltsA`, asserted
`"ok"` by `tests/test_belts.py`, is therefore declared infeasible: the source
vertex `s1` gets balance `-50` where the claimed balance
`b(s1) = s(s1) + Σ lo_in - Σ lo_out` is `+70`). -/
theorem c2_lb_phase_omits_supply_terms :
    solve_belts beltsA = .infeasible ["a", "b", "sink"] 50 [] [] ∧
    imbOf beltsA "s1" = -50 ∧
    spec_balance beltsA "s1" = 70 ∧
    (alookup beltsA.sources "s1").getD 0 = 120 := by
  refine ⟨?_, ?_, ?_, ?_⟩ <;> with_unfolding_all rfl

/-- C3: no `hi < lo` validation exists.  On `exC3`, whose first edge has
`hi + TOL < lo` (`3 + 10⁻⁹ < 5`), the solver does not fail with an
infeasibility result naming that edge — it runs both max-flow phases and
returns `"ok"`, reporting flow `5` on the offending edge. -/
theorem c3_counterexample :
    (∃ e ∈ exC3.edges, e.hi + TOL < e.lo) ∧
    solve_belts exC3 = .ok 0 [⟨"s", "t", 5⟩] := by
  constructor
  · refine ⟨⟨"s", "t", 5, 3⟩, ?_, ?_⟩
    · with_unfolding_all decide
    · rw [show (⟨"s", "t", 5, 3⟩ : BEdge).hi = 3 from rfl,
          show (⟨"s", "t", 5, 3⟩ : BEdge).lo = 5 from rfl]
      norm_num [TOL]
  · with_unfolding_all rfl

/-- C3 (amended): an edge with `hi + ε < lo` is simply carried through the
reduction with a negative reduced capacity: its reduced edge is recorded, its
capacity never exceeds `TOL`, and `add_edge` ignores any such capacity, so the
edge contributes no forward capacity to any flow graph and no early failure
occurs. -/
theorem c3_no_bounds_validation (input : BeltsInput) (e : BEdge)
    (he : e ∈ input.edges) (h : e.hi + TOL < e.lo) :
    (map_node input e.src true, map_node input e.dst false, e.hi - e.lo) ∈
        reduced_edges input ∧
    e.hi - e.lo ≤ TOL ∧
    ∀ (g : Graph) (u v : String), add_edge g u v (e.hi - e.lo) = g := by
  refine ⟨?_, ?_, ?_⟩
  · unfold reduced_edges transformed_edges
    rw [List.map_append, List.mem_append]
    right
    rw [List.map_map, List.mem_map]
    exact ⟨e, he, rfl⟩
  · have := TOL_pos
    linarith
  · intro g u v
    unfold add_edge
    have hneg : ¬ (e.hi - e.lo > TOL) := by
      have := TOL_pos
      linarith
    rw [if_neg hneg]

/-- C3 (witness): the amended statement applied to the concrete offending
edge of `exC3`. -/
theorem c3_no_bounds_validation_witness :
    ((map_node exC3 "s" true, map_node exC3 "t" false,
        (3 : ℚ) - 5) ∈ reduced_edges exC3) ∧
    ((3 : ℚ) - 5 ≤ TOL) ∧
    ∀ (g : Graph) (u v : String), add_edge g u v ((3 : ℚ) - 5) = g :=
  c3_no_bounds_validation exC3 ⟨"s", "t", 5, 3⟩
    (by with_unfolding_all decide)
    (by rw [show (⟨"s", "t", 5, 3⟩ : BEdge).hi = 3 from rfl,
            show (⟨"s", "t", 5, 3⟩ : BEdge).lo = 5 from rfl]
        norm_num [TOL])

/-- C4: `add_edge` merges the two parallel edges `a → t` of `exC4` by summing
their capacities, and the per-edge reconstruction then compares each original
edge against the shared merged residual: the solver answers `"ok"` yet its
flow list carries `10` into the interior node `a` and nothing out of it,
violating conservation at a node that is neither a source nor the sink. -/
theorem c4_parallel_merge_breaks_conservation :
    ∃ fl, solve_belts exC4 = .ok 10 fl ∧
      ((fl.filter (fun x => x.dst = "a")).map (fun x => x.flow)).sum = 10 ∧
      ((fl.filter (fun x => x.src = "a")).map (fun x => x.flow)).sum = 0 ∧
      alookup exC4.sources "a" = none ∧
      exC4.sink ≠ "a" := by
  refine ⟨[⟨"s", "a", 10⟩], ?_, ?_, ?_, ?_, ?_⟩
  · with_unfolding_all rfl
  · with_unfolding_all rfl
  · with_unfolding_all rfl
  · with_unfolding_all rfl
  · with_unfolding_all decide

/-- C5: on `exC5` the lower-bound phase fails and reports the tight edge
`q → p` with `flow_needed = 4`, the edge's reduced capacity `hi - lo`; the
edge's lower bound is `0`, refuting the claim that `flow_needed` equals the
lower bound. -/
theorem c5_counterexample :
    solve_belts exC5 = .infeasible ["q"] 6 [] [⟨"q", "p", 4⟩] ∧
    exC5.edges = [⟨"p", "q", 10, 12⟩, ⟨"q", "p", 0, 4⟩] ∧
    ((4 : ℚ) ≠ 0) := by
  refine ⟨?_, ?_, ?_⟩
  · with_unfolding_all rfl
  · rfl
  · norm_num

/-- C5 (amended): every `tight_edges` entry of an infeasibility result comes
from a reduced edge crossing the residual cut of the failing phase with
forward residual at most `TOL`, and reports `flow_needed` equal to that
edge's reduced capacity `hi - lo`; in the lower-bound phase the names are the
internal vertex names, in the main phase the tail is mapped back through
`_out` vertices and the head through `_in` vertices. -/
theorem c5_tight_edges_structure (input : BeltsInput) (cr : List String)
    (db : ℚ) (tn : List String) (te : List TightEntry)
    (h : solve_belts input = .infeasible cr db tn te) :
    ∀ entry ∈ te, ∃ uvc ∈ reduced_edges input,
      entry.flowNeeded = uvc.2.2 ∧
      ((uvc.1 ∈ lb_reach input ∧ uvc.2.1 ∉ lb_reach input ∧
          getG (lb_graph_after input) uvc.1 uvc.2.1 ≤ TOL ∧
          entry.src = uvc.1 ∧ entry.dst = uvc.2.1) ∨
        (uvc.1 ∈ main_reach input ∧ uvc.2.1 ∉ main_reach input ∧
          getG (main_graph_after input) uvc.1 uvc.2.1 ≤ TOL ∧
          entry.src = map_back_tail input uvc.1 ∧
          entry.dst = map_back_head input uvc.2.1)) := by
  intro entry hentry
  obtain ⟨-, hte⟩ := solve_belts_infeasible_elim h
  cases hte with
  | inl hlb =>
      rw [hlb] at hentry
      have hmem := List.take_subset 3 _ hentry
      obtain ⟨uvc, hm, heq, h1, h2, h3⟩ := mem_tight_edges_lb hmem
      exact ⟨uvc, hm, by rw [heq], Or.inl ⟨h1, h2, h3, by rw [heq], by rw [heq]⟩⟩
  | inr hmn =>
      rw [hmn] at hentry
      have hmem := List.take_subset 3 _ hentry
      obtain ⟨uvc, hm, heq, h1, h2, h3⟩ := mem_tight_edges_main hmem
      exact ⟨uvc, hm, by rw [heq], Or.inr ⟨h1, h2, h3, by rw [heq], by rw [heq]⟩⟩

/-- C5 (witness): the amended statement instantiated on `exC5` and the single
tight edge `q → p` of its infeasibility result. -/
theorem c5_tight_edges_witness :
    ∃ uvc ∈ reduced_edges exC5,
      (⟨"q", "p", 4⟩ : TightEntry).flowNeeded = uvc.2.2 ∧
      ((uvc.1 ∈ lb_reach exC5 ∧ uvc.2.1 ∉ lb_reach exC5 ∧
          getG (lb_graph_after exC5) uvc.1 uvc.2.1 ≤ TOL ∧
          (⟨"q", "p", 4⟩ : TightEntry).src = uvc.1 ∧
          (⟨"q", "p", 4⟩ : TightEntry).dst = uvc.2.1) ∨
        (uvc.1 ∈ main_reach exC5 ∧ uvc.2.1 ∉ main_reach exC5 ∧
          getG (main_graph_after exC5) uvc.1 uvc.2.1 ≤ TOL ∧
          (⟨"q", "p", 4⟩ : TightEntry).src = map_back_tail exC5 uvc.1 ∧
          (⟨"q", "p", 4⟩ : TightEntry).dst = map_back_head exC5 uvc.2.1)) :=
  c5_tight_edges_structure exC5 ["q"] 6 [] [⟨"q", "p", 4⟩]
    (by with_unfolding_all rfl) ⟨"q", "p", 4⟩ (List.mem_singleton.mpr rfl)

/-- C6: on `exC6` the main phase fails; the split node `a` has its
`a_in → a_out` capacity edge fully saturated (zero remaining residual) with
`a_in` residual-reachable, so the claim requires `tight_nodes = ["a"]`, yet
the emitted `tight_nodes` list is empty (the source hard-codes `[]`). -/
theorem c6_counterexample :
    solve_belts exC6 = .infeasible ["a", "s"] 5 [] [⟨"a_in", "a_out", 5⟩] ∧
    node_split_map exC6 = [("a", "a_in", "a_out")] ∧
    getG (main_graph_after exC6) "a_in" "a_out" = 0 ∧
    "a_in" ∈ main_reach exC6 := by
  refine ⟨?_, ?_, ?_, ?_⟩
  · with_unfolding_all rfl
  · with_unfolding_all rfl
  · with_unfolding_all rfl
  · have hres : main_reach exC6 = ["s", "a_in"] := by with_unfolding_all rfl
    rw [hres]
    simp

/-- C6 (amended): in every infeasibility result of `solve_belts`, from either
phase, the `tight_nodes` list is the empty list. -/
theorem c6_tight_nodes_always_empty (input : BeltsInput) (cr : List String)
    (db : ℚ) (tn : List String) (te : List TightEntry)
    (h : solve_belts input = .infeasible cr db tn te) : tn = [] :=
  (solve_belts_infeasible_elim h).1

/-- C6 (witness): the amended statement instantiated on `exC6`. -/
theorem c6_tight_nodes_witness : ([] : List String) = [] :=
  c6_tight_nodes_always_empty exC6 ["a", "s"] 5 [] [⟨"a_in", "a_out", 5⟩]
    (by with_unfolding_all rfl)

/-- C7: on `exC7` (an input containing an edge with `hi < lo`) the solver
answers `"ok"` and reports flow `5` on the edge `s → t` whose upper bound is
`3`: the reported flow exceeds `hi` by far more than `TOL`, refuting the
claim for inputs that violate `lo ≤ hi`. -/
theorem c7_counterexample :
    solve_belts exC7 = .ok 0 [⟨"s", "t", 5⟩] ∧
    exC7.edges = [⟨"s", "t", 5, 3⟩, ⟨"t", "s", 0, 10⟩] ∧
    ¬ ((5 : ℚ) ≤ 3 + TOL) := by
  refine ⟨?_, rfl, ?_⟩
  · with_unfolding_all rfl
  · norm_num [TOL]

/-- C7 (amended): provided every input edge satisfies `lo ≤ hi`, every flow
entry of an `"ok"` result lies within the bounds of a matching original edge:
the reconstruction `max(0, (hi - lo) - remaining) + lo` cannot leave
`[lo, hi]` because residuals are nonnegative. -/
theorem c7_bound_compliance (input : BeltsInput)
    (hb : ∀ e ∈ input.edges, e.lo ≤ e.hi) (mf : ℚ) (fl : List FlowEntry)
    (h : solve_belts input = .ok mf fl) :
    ∀ entry ∈ fl, ∃ e0 ∈ input.edges,
      entry.src = e0.src ∧ entry.dst = e0.dst ∧
      e0.lo ≤ entry.flow ∧ entry.flow ≤ e0.hi := by
  intro entry hentry
  obtain ⟨-, hfl⟩ := solve_belts_ok_elim h
  rw [hfl, mem_sortBy] at hentry
  obtain ⟨e, hmem, hsp, hsrc, hdst, hflow, -⟩ := mem_flows_raw hentry
  obtain ⟨e0, hm0, hlo, hhi, hos, hod, -, -⟩ := not_split_mem_transformed hmem hsp
  refine ⟨e0, hm0, by rw [hsrc, hos], by rw [hdst, hod], ?_, ?_⟩
  · have h0 : (0 : ℚ) ≤
        max 0 ((e.hi - e.lo) - getG (main_graph_after input) e.src e.dst) :=
      le_max_left _ _
    rw [hflow, ← hlo]
    linarith
  · have hres : 0 ≤ getG (main_graph_after input) e.src e.dst :=
      main_graph_after_nonneg input _ _
    have hcap : 0 ≤ e.hi - e.lo := by
      rw [hlo, hhi]
      have := hb e0 hm0
      linarith
    have hmle : max 0 ((e.hi - e.lo) - getG (main_graph_after input) e.src e.dst)
        ≤ e.hi - e.lo := max_le hcap (by linarith)
    rw [hflow, ← hhi]
    linarith

/-- C7 (witness): the amended statement instantiated on the feasible input
`exC7W` and its single reported flow entry, `6` on the edge `s → t` with
bounds `[0, 8]`. -/
theorem c7_bound_compliance_witness :
    ∃ e0 ∈ exC7W.edges,
      (⟨"s", "t", 6⟩ : FlowEntry).src = e0.src ∧
      (⟨"s", "t", 6⟩ : FlowEntry).dst = e0.dst ∧
      e0.lo ≤ (⟨"s", "t", 6⟩ : FlowEntry).flow ∧
      (⟨"s", "t", 6⟩ : FlowEntry).flow ≤ e0.hi :=
  c7_bound_compliance exC7W
    (by intro e he
        rw [show exC7W.edges = [⟨"s", "t", 0, 8⟩] from rfl] at he
        rw [List.mem_singleton] at he
        subst he
        norm_num)
    6 [⟨"s", "t", 6⟩] (by with_unfolding_all rfl)
    ⟨"s", "t", 6⟩ (List.mem_singleton.mpr rfl)

/-- C9: every entry of the `flows` list of an `"ok"` result has flow strictly
above `TOL = 10⁻⁹` (zero-flow edges are omitted by the reconstruction filter)
and names an original input edge. -/
theorem c9_flows_positive_and_original (input : BeltsInput) (mf : ℚ)
    (fl : List FlowEntry) (h : solve_belts input = .ok mf fl) :
    ∀ entry ∈ fl, entry.flow > TOL ∧
      ∃ e0 ∈ input.edges, entry.src = e0.src ∧ entry.dst = e0.dst := by
  intro entry hentry
  obtain ⟨-, hfl⟩ := solve_belts_ok_elim h
  rw [hfl, mem_sortBy] at hentry
  obtain ⟨e, hmem, hsp, hsrc, hdst, -, hpos⟩ := mem_flows_raw hentry
  obtain ⟨e0, hm0, -, -, hos, hod, -, -⟩ := not_split_mem_transformed hmem hsp
  exact ⟨hpos, e0, hm0, by rw [hsrc, hos], by rw [hdst, hod]⟩

/-- C9 (witness): instantiated on `exC9` and its only flow entry, `s → t`
with flow `5` (the zero-flow edge `a → t` is omitted from the result). -/
theorem c9_witness :
    (⟨"s", "t", 5⟩ : FlowEntry).flow > TOL ∧
      ∃ e0 ∈ exC9.edges,
        (⟨"s", "t", 5⟩ : FlowEntry).src = e0.src ∧
        (⟨"s", "t", 5⟩ : FlowEntry).dst = e0.dst :=
  c9_flows_positive_and_original exC9 5 [⟨"s", "t", 5⟩]
    (by with_unfolding_all rfl) ⟨"s", "t", 5⟩ (List.mem_singleton.mpr rfl)

/-- C10: both infeasibility branches truncate their `tight_edges` list with
`[:3]`, so every infeasibility result carries at most 3 tight edges. -/
theorem c10_tight_edges_at_most_three (input : BeltsInput) (cr : List String)
    (db : ℚ) (tn : List String) (te : List TightEntry)
    (h : solve_belts input = .infeasible cr db tn te) : te.length ≤ 3 := by
  obtain ⟨-, hte⟩ := solve_belts_infeasible_elim h
  cases hte with
  | inl hlb =>
      rw [hlb, List.length_take]
      omega
  | inr hmn =>
      rw [hmn, List.length_take]
      omega

/-- C10 (witness): instantiated on the infeasible input `exC10`. -/
theorem c10_witness : ([⟨"s", "t", 5⟩] : List TightEntry).length ≤ 3 :=
  c10_tight_edges_at_most_three exC10 ["s"] 5 [] [⟨"s", "t", 5⟩]
    (by with_unfolding_all rfl)

end Belts

namespace Factory

open Belts (alookup)

/-- C1: the items enumeration of the model builder collects only items
appearing in recipe bags, so the target item `"gear"` of `exC1` gets no
balance constraint at all; the all-zero point satisfies every built
constraint (it is the optimum of the minimize-machines LP, so the solver
answers `"ok"`), yet its net production of the target is `0`, not the
requested `10`. -/
theorem c1_counterexample :
    exC1.targetItem = "gear" ∧
    "gear" ∉ itemsOf exC1 ∧
    FeasPrimary exC1 (fun _ => 0) (fun _ => 0) ∧
    netProd exC1 "gear" (fun _ => 0) = 0 ∧
    exC1.ratePerMin = 10 := by
  refine ⟨rfl, ?_, ?_, ?_, ?_⟩
  · with_unfolding_all decide
  · with_unfolding_all decide
  · with_unfolding_all rfl
  · with_unfolding_all rfl

/-- C1 (amended): whenever the target item does appear in some recipe's bags
(so that it receives a balance constraint) and carries no raw-supply cap,
every point satisfying the built constraint system produces the target at
exactly the requested rate. -/
theorem c1_target_balance (d : FactoryInput) (x c : String → ℚ)
    (h1 : d.targetItem ∈ itemsOf d)
    (h2 : alookup d.rawCaps d.targetItem = none)
    (hf : FeasPrimary d x c) :
    netProd d d.targetItem x = d.ratePerMin := by
  have hit := hf.2.1 d.targetItem h1
  unfold itemConstraint at hit
  rw [h2] at hit
  simpa using hit

/-- C1 (witness): the amended statement on `exC1W`, where running the single
recipe at 30 crafts/min meets the requested target rate of 30. -/
theorem c1_target_balance_witness :
    netProd exC1W exC1W.targetItem (fun _ => 30) = exC1W.ratePerMin :=
  c1_target_balance exC1W (fun _ => 30) (fun _ => 0)
    (by with_unfolding_all decide)
    (by with_unfolding_all rfl)
    (by with_unfolding_all decide)

theorem tight_machines_aux (d : FactoryInput) (xv : String → ℚ) :
    ∀ (l : List (String × ℚ)) (acc : List String),
      l.foldl
        (fun acc p =>
          match alookup d.maxMachines p.1 with
          | some cap =>
              if machineUsage d xv p.1 ≥ cap - 1 / 1000000 then
                acc ++ [p.1 ++ " cap"]
              else acc
          | none => acc) acc
      = acc ++ ((l.map Prod.fst).filter
          (fun m =>
            match alookup d.maxMachines m with
            | some cap => decide (machineUsage d xv m ≥ cap - 1 / 1000000)
            | none => false)).map (fun m => m ++ " cap") := by
  intro l
  induction l with
  | nil => intro acc; simp
  | cons p rest ih =>
      intro acc
      simp only [List.foldl_cons, List.map_cons, List.filter_cons]
      cases halk : alookup d.maxMachines p.1 with
      | none =>
          simp only [halk, ih]
          simp
      | some cap =>
          by_cases hc : machineUsage d xv p.1 ≥ cap - 1 / 1000000
          · have hd : decide (machineUsage d xv p.1 ≥ cap - 1 / 1000000) = true :=
              decide_eq_true hc
            simp only [halk, if_pos hc, ih, hd]
            simp
          · have hd : decide (machineUsage d xv p.1 ≥ cap - 1 / 1000000) = false :=
              decide_eq_false hc
            simp only [halk, if_neg hc, ih, hd]
            simp

theorem tight_raws_aux (d : FactoryInput) (cv : String → ℚ) :
    ∀ (l : List String) (acc : List String),
      l.foldl
        (fun acc it =>
          match alookup d.rawCaps it with
          | some cap =>
              if cv it ≥ cap - 1 / 1000000 then acc ++ [it ++ " supply"]
              else acc
          | none => acc) acc
      = acc ++ (l.filter
          (fun it =>
            match alookup d.rawCaps it with
            | some cap => decide (cv it ≥ cap - 1 / 1000000)
            | none => false)).map (fun it => it ++ " supply") := by
  intro l
  induction l with
  | nil => intro acc; simp
  | cons it rest ih =>
      intro acc
      simp only [List.foldl_cons, List.filter_cons]
      cases halk : alookup d.rawCaps it with
      | none =>
          simp only [halk, ih]
          simp
      | some cap =>
          by_cases hc : cv it ≥ cap - 1 / 1000000
          · have hd : decide (cv it ≥ cap - 1 / 1000000) = true :=
              decide_eq_true hc
            simp only [halk, if_pos hc, ih, hd]
            simp
          · have hd : decide (cv it ≥ cap - 1 / 1000000) = false :=
              decide_eq_false hc
            simp only [halk, if_neg hc, ih, hd]
            simp

/-- C8: the diagnostic branch emits `max 0` and `["unsatisfiable"]` when the
second LP is infeasible, and otherwise a hint list equal to all machine-cap
entries (usage within `10⁻⁶` of the cap) followed by all raw-supply entries
(consumption within `10⁻⁶` of the cap), in that order. -/
theorem c8_diagnostic_structure (d : FactoryInput) :
    diagnostic_result d none = .infeasible 0 ["unsatisfiable"] ∧
    ∀ sol : DiagSol, diagnostic_result d (some sol) =
      .infeasible sol.targetVal
        (spec_machine_hints d sol.xvals ++ spec_raw_hints d sol.cvals) := by
  constructor
  · rfl
  · intro sol
    show FactoryResult.infeasible sol.targetVal
        (tight_machines d sol.xvals ++ tight_raws d sol.cvals) = _
    unfold tight_machines tight_raws spec_machine_hints spec_raw_hints
    rw [tight_machines_aux, tight_raws_aux]
    simp

end Factory

